import Mathlib

/-!
Verification of the tsundoku data pipeline against its specification.

The definitions below are a shallow embedding of the Python sources:
- `src/tsundoku/data/importer.py` (TweetImporter),
- `src/tsundoku/features/prepare_experiment.py` (preparation CLI),
- `src/tsundoku/models/classifier.py` (PartiallyLabeledXGB, cross_validate).

Machine-level details that do not affect the verified claims (logging,
gzip encoding, dask scheduling) are elided; record batches become lists,
dataframes become lists of structures, and the filesystem becomes an
explicit state value.
-/

namespace Tsundoku

/-! ### String matching primitives

`re.compile("|".join(patterns), re.IGNORECASE)` built from literal list-file
lines, applied via `Series.str.contains`, is a substring search for any of
the alternatives, case-insensitively.  An Aho-Corasick automaton scan
(`automaton.iter(text)`) reports every added word occurring as a substring
of `text`, case-sensitively. -/

/-- Boolean substring test on character lists: does `p` occur contiguously
inside `s`? -/
def infixOfB (p : List Char) : List Char → Bool
  | [] => p.isEmpty
  | c :: cs => p.isPrefixOf (c :: cs) || infixOfB p cs

/-- Case-sensitive substring search, as performed by the Aho-Corasick
automaton over the raw `text`. -/
def strContains (pat s : String) : Bool :=
  infixOfB pat.toList s.toList

/-- Case-insensitive substring search, as performed by a compiled
`re.IGNORECASE` literal pattern via `re.search`. -/
def strContainsCI (pat s : String) : Bool :=
  infixOfB (pat.toList.map Char.toLower) (s.toList.map Char.toLower)

/-- Matching a regex built as `re.compile("|".join(patterns), re.IGNORECASE)`
against a string: some alternative occurs as a substring.  An empty pattern
list joins to the empty pattern, which matches every string. -/
def reAlternationSearch (patterns : List String) (s : String) : Bool :=
  match patterns with
  | [] => true
  | _ :: _ => patterns.any (fun p => strContainsCI p s)

/-- `df["user.location"].str.contains(pat) == True` for one cell: a missing
location gives NaN, and `NaN == True` is `False`. -/
def seriesStrContainsEqTrue (patterns : List String) (loc : Option String) : Bool :=
  match loc with
  | none => false
  | some s => reAlternationSearch patterns s

/-! ### Tweet importer (`src/tsundoku/data/importer.py`) -/

/-- One parsed tweet record, restricted to the fields `filter_dataframe`
reads: `id` (possibly null), `user.location` (possibly NaN) and `text`. -/
structure Tweet where
  id : Option Nat
  location : Option String
  text : String
deriving DecidableEq, Repr

/-- The configuration state assembled by `configure_locations` and
`configure_terms`: `location["accept_unknown"]`, `location["patterns"]`
(gazetteers), `location["blacklist"]`, `terms["patterns"]` (search terms)
and `terms["blacklist"]` (rejected terms).  `none` models the Python
`None` stored when the corresponding config key is absent; a compiled
regex object is always truthy, so `some []` is still an active filter. -/
structure ImporterConfig where
  acceptUnknown : Bool
  gazetteerPatterns : Option (List String)
  locationBlacklist : Option (List String)
  termPatterns : Option (List String)
  termBlacklist : Option (List String)
deriving Repr

/-- The Aho-Corasick automaton as the association of added words to their
stored values; `add_word` on an existing word overwrites its value. -/
abbrev Automaton := List (String × String)

/-- `automaton.add_word(w, v)`: overwrite the value if `w` was added
before, otherwise append the new word. -/
def addWord (a : Automaton) (w v : String) : Automaton :=
  if a.any (fun p => p.1 = w) then
    a.map (fun p => if p.1 = w then (w, v) else p)
  else a ++ [(w, v)]

/-- Add every word of `ws` with the same stored value `v`. -/
def addWords (a : Automaton) (ws : List String) (v : String) : Automaton :=
  ws.foldl (fun acc w => addWord acc w v) a

/-- `configure_terms` builds the automaton: every search term is added with
value `"search-term"`, then every blacklisted term with value
`"rejected-term"`. -/
def configureAutomaton (cfg : ImporterConfig) : Automaton :=
  addWords (addWords [] (cfg.termPatterns.getD []) "search-term")
    (cfg.termBlacklist.getD []) "rejected-term"

/-- `set(pluck(1, self.automaton.iter(text)))`: the values stored for the
automaton words occurring in `text` (as a list; only membership is used). -/
def automatonFindings (a : Automaton) (text : String) : List String :=
  (a.filter (fun p => strContains p.1 text)).map (fun p => p.2)

/-- The location stage of `filter_dataframe` for one record: non-null `id`,
conjoined with the gazetteer test when `accept_unknown` is false and
gazetteer patterns were compiled, conjoined with the negated blacklist
test when a location blacklist was compiled. -/
def locationFlag (cfg : ImporterConfig) (t : Tweet) : Bool :=
  t.id.isSome
    && (if !cfg.acceptUnknown then
          match cfg.gazetteerPatterns with
          | some pats => seriesStrContainsEqTrue pats t.location
          | none => true
        else true)
    && (match cfg.locationBlacklist with
        | some pats => !(seriesStrContainsEqTrue pats t.location)
        | none => true)

/-- The keyword stage of `filter_dataframe` for one candidate record:
scan `text` once, then apply the keep policy depending on whether search
terms were configured (`terms["patterns"] is not None`). -/
def keywordKeep (cfg : ImporterConfig) (t : Tweet) : Bool :=
  let findings := automatonFindings (configureAutomaton cfg) t.text
  if cfg.termPatterns.isSome then
    findings.contains "search-term" && !(findings.contains "rejected-term")
  else
    !(findings.contains "rejected-term")

/-- `TweetImporter.filter_dataframe`: location filtering, then — only when
the automaton holds at least one word — keyword filtering. -/
def filterDataframe (cfg : ImporterConfig) (df : List Tweet) : List Tweet :=
  let candidates := df.filter (locationFlag cfg)
  if (configureAutomaton cfg).length ≠ 0 then
    candidates.filter (keywordKeep cfg)
  else
    candidates

/-- `read_tweet_dataframe`: an empty parse is returned unfiltered. -/
def readTweetDataframe (cfg : ImporterConfig) (records : List Tweet) : List Tweet :=
  if records.isEmpty then records else filterDataframe cfg records

/-- One raw input file as `_read_file` sees it: either the decompression
fails (`zlib.error`), or it parses to a record list; `hasTextColumn`
records whether the parsed dataframe carries a `text` column (row
filtering never removes a column). -/
inductive RawFile where
  | corrupt : RawFile
  | ok (hasTextColumn : Bool) (records : List Tweet) : RawFile
deriving DecidableEq, Repr

/-- The record count contributed by `_read_file` for one file: 0 for a
corrupted file, 0 when the filtered result lacks a `text` column or has no
rows, otherwise the filtered length (which is what gets written). -/
def readFileRecordCount (cfg : ImporterConfig) : RawFile → Nat
  | .corrupt => 0
  | .ok hasText records =>
      let df := readTweetDataframe cfg records
      if !hasText || df.isEmpty then 0 else df.length

/-- `import_files`: dispatch `_read_file` per input file and sum the
per-file record counts. -/
def importFilesCount (cfg : ImporterConfig) (files : List RawFile) : Nat :=
  (files.map (readFileRecordCount cfg)).sum

/-! ### Generic list helpers shared by the embeddings -/

/-- First-seen deduplication (the row order of `pandas.unique` and of an
outer merge): keep an element unless it already occurred. -/
def dedupFirstSeenAux {α : Type} [DecidableEq α] (seen : List α) : List α → List α
  | [] => []
  | x :: xs =>
      if x ∈ seen then dedupFirstSeenAux seen xs
      else x :: dedupFirstSeenAux (x :: seen) xs

/-- First-seen deduplication of a list. -/
def dedupFirstSeen {α : Type} [DecidableEq α] (l : List α) : List α :=
  dedupFirstSeenAux [] l

/-- Insertion step of a deterministic comparison sort. -/
def insertSorted {α : Type} (le : α → α → Bool) (x : α) : List α → List α
  | [] => [x]
  | y :: ys => if le x y then x :: y :: ys else y :: insertSorted le x ys

/-- Deterministic insertion sort by a boolean comparison. -/
def insSort {α : Type} (le : α → α → Bool) : List α → List α
  | [] => []
  | x :: xs => insertSorted le x (insSort le xs)

/-- Dictionary lookup on an association list (`dict.get`). -/
def lookupAssoc {κ β : Type} [BEq κ] (l : List (κ × β)) (k : κ) : Option β :=
  (l.find? (fun p => p.1 == k)).map Prod.snd

/-- `drop_duplicates(subset=key, keep="last")`: keep a row only when no
later row carries the same key; the order of the kept rows is preserved. -/
def dropDuplicatesKeepLast {α β : Type} [DecidableEq β] (key : α → β) :
    List α → List α
  | [] => []
  | x :: xs =>
      if xs.any (fun y => key y = key x) then dropDuplicatesKeepLast key xs
      else x :: dropDuplicatesKeepLast key xs

/-! ### Semi-supervised classifier (`src/tsundoku/models/classifier.py`) -/

/-- `DataFrame.max(axis=1)` over one row of class probabilities. -/
def rowMax : List ℚ → ℚ
  | [] => 0
  | x :: xs => xs.foldl max x

/-- `DataFrame.idxmax(axis=1)` over the class-probability columns: the
first class (in column order) whose probability attains the row maximum. -/
def idxmaxLabel (classes : List String) (ps : List ℚ) : Option String :=
  ((classes.zip ps).find? (fun cp => decide (cp.2 = rowMax ps))).map Prod.fst

/-- One output row of `classify_and_label`: the row maximum probability,
the (possibly abstained) label, and the provenance tag. -/
structure LabeledRow where
  maxProbability : ℚ
  label : Option String
  source : String
deriving DecidableEq, Repr

/-- `PartiallyLabeledXGB.classify_and_label`: per row, record the maximum
class probability and the argmax class, tag the source `"xgb"`, then
overwrite the label with `non_labeled_value` on the rows whose maximum
probability is strictly below `min_probability`. -/
def classifyAndLabel (classes : List String) (probas : List (List ℚ))
    (minProbability : ℚ) (nonLabeledValue : Option String) : List LabeledRow :=
  probas.map (fun ps =>
    let m := rowMax ps
    let row : LabeledRow :=
      { maxProbability := m, label := idxmaxLabel classes ps, source := "xgb" }
    if m < minProbability then { row with label := nonLabeledValue } else row)

/-! ### Cross-validation fold computation (`cross_validate`)

`cross_validate` constructs `StratifiedKFold(n_splits=n_splits)` — without
forwarding `shuffle` or `random_state` — and iterates
`skf.split(np.arange(X.shape[0]), y=stratify_on)`.  The splitter itself is
third-party; `skfSplit` below is modelled from the spec boundary contract:
the deterministic, unshuffled stratified k-fold assignment (sort the
encoded labels, allocate each class round-robin across folds, assign each
sample's fold by its rank within its class). -/

/-- The sorted unique class values of the stratification key
(`np.unique`). -/
def sortedUniqueClasses (ys : List String) : List String :=
  insSort (fun a b => decide (a ≤ b)) (dedupFirstSeen ys)

/-- Encode each stratification value by its index among the sorted unique
classes. -/
def yEncoded (ys : List String) : List Nat :=
  ys.map (fun y => (sortedUniqueClasses ys).indexOf y)

/-- The slice `l[i::k]`: elements at positions congruent to `i` modulo
`k`. -/
def takeEvery (l : List Nat) (k i : Nat) : List Nat :=
  (l.enum.filter (fun p => p.1 % k == i)).map Prod.snd

/-- How many samples of class `c` land in fold `i`: the count of `c`
within the `i`-th stride of the sorted encoded labels. -/
def allocationCount (k : Nat) (enc : List Nat) (i c : Nat) : Nat :=
  (takeEvery (insSort (fun a b => decide (a ≤ b)) enc) k i).count c

/-- The fold indices assigned to the successive samples of class `c`. -/
def foldsForClass (k : Nat) (enc : List Nat) (c : Nat) : List Nat :=
  ((List.range k).map (fun i => List.replicate (allocationCount k enc i c) i)).join

/-- Per-sample test-fold assignment of the unshuffled stratified k-fold. -/
def testFoldAssignment (k : Nat) (ys : List String) : List Nat :=
  let enc := yEncoded ys
  enc.enum.map (fun pc =>
    let r := (enc.take pc.1).count pc.2
    (foldsForClass k enc pc.2).getD r 0)

/-- The `(train, test)` index partitions yielded by the unshuffled
stratified k-fold splitter. -/
def skfSplit (k : Nat) (ys : List String) : List (List Nat × List Nat) :=
  let tf := testFoldAssignment k ys
  (List.range k).map (fun i =>
    ((tf.enum.filter (fun pc => pc.2 != i)).map Prod.fst,
     (tf.enum.filter (fun pc => pc.2 == i)).map Prod.fst))

/-- The fold computation of `cross_validate`: default the stratification
key to the labels with missing values replaced by `null_name`, fail when
its length mismatches `y`, then split.  `randomState` is the function's
`random_state` parameter (default 42 in the source); the splitter is
constructed from `nSplits` alone. -/
def crossValidateFolds (y : List (Option String)) (stratifyOn : Option (List String))
    (nSplits : Nat) (randomState : Nat) (nullName : String) :
    Except String (List (List Nat × List Nat)) :=
  let strat := match stratifyOn with
    | none => y.map (fun v => v.getD nullName)
    | some s => s
  if strat.length ≠ y.length then
    Except.error "stratify and y have different lengths"
  else
    Except.ok (skfSplit nSplits strat)

/-! ### Experiment preparation (`src/tsundoku/features/prepare_experiment.py`) -/

/-- The weight stored in an edge-layer table for a (source, target) pair,
`fillna(0)` when the pair is absent from that layer.  A layer row is
`(source.id, target.id, frequency)`. -/
def layerWeight (layer : List (Nat × Nat × Nat)) (p : Nat × Nat) : Nat :=
  ((layer.find? (fun e => e.1 == p.1 && e.2.1 == p.2)).map (fun e => e.2.2)).getD 0

/-- The successive outer merges of `find_nodes_in_discussion`: the row set
is keyed by the union of the (source, target) pairs of the retweet, reply
and quote layers (in first-appearance order), and each row carries the
summed `weight` column. -/
def mergedLayers (rt rp qt : List (Nat × Nat × Nat)) :
    List ((Nat × Nat) × Nat) :=
  let pairs := dedupFirstSeen ((rt ++ rp ++ qt).map (fun e => (e.1, e.2.1)))
  pairs.map (fun p => (p, layerWeight rt p + layerWeight rp p + layerWeight qt p))

/-- Modelled from the spec: the third-party graph library's undirected
connected-component labelling.  Nodes start in singleton classes (labelled
by their position) and every edge merges the two classes of its endpoints
into one, relabelled with the smaller label; a whole-class relabel per
edge reaches the connected components after a single pass. -/
def labelComponents (nodes : List Nat) (edges : List (Nat × Nat)) :
    List (Nat × Nat) :=
  let init := nodes.enum.map (fun p => (p.2, p.1))
  edges.foldl (fun lab e =>
    let lu := (lookupAssoc lab e.1).getD 0
    let lv := (lookupAssoc lab e.2).getD 0
    let m := min lu lv
    lab.map (fun q => if q.2 = lu ∨ q.2 = lv then (q.1, m) else q)) init

/-- `np.argmax` over a histogram given as (key, count) rows: the key of
the first row attaining the maximal count. -/
def argmaxFirst : List (Nat × Nat) → Nat
  | [] => 0
  | p :: rest => (rest.foldl (fun best q => if best.2 < q.2 then q else best) p).1

/-- `find_nodes_in_discussion`: merge the three interaction layers, build
the graph over the union of endpoint ids, label connected components
(the source passes the literal `directed=False` to both the graph
construction and the component labelling, so the `directed` parameter is
never consulted), take the component-size histogram, and return the user
ids in the largest component. -/
def findNodesInDiscussion (rt rp qt : List (Nat × Nat × Nat))
    (directed : Bool) : List Nat :=
  let layers := mergedLayers rt rp qt
  let edges := layers.map Prod.fst
  let nodes := dedupFirstSeen (edges.map Prod.fst ++ edges.map Prod.snd)
  let lab := labelComponents nodes edges
  let labelsInOrder := dedupFirstSeen (lab.map Prod.snd)
  let histogram := labelsInOrder.map (fun c => (c, (lab.map Prod.snd).count c))
  let largest := argmaxFirst histogram
  (lab.filter (fun q => q.2 == largest)).map Prod.fst

/-- One row of a partition's `unique_users.json.gz`: the user id plus the
remaining profile columns, abstracted into one payload. -/
structure UserRec where
  id : Nat
  payload : String
deriving DecidableEq, Repr

/-- The filesystem state `group_users` interacts with under one processed
path: its two output artifacts (absent until written), the inputs it
reads (`user.total_tweets.json.gz`, the three merged edge tables consumed
by `find_nodes_in_discussion`), and the concatenated partitions'
`unique_users` rows. -/
structure ProcState where
  userUnique : Option (List (UserRec × Nat))
  elemIds : Option (List (Nat × Nat))
  totalTweets : List (Nat × Nat)
  retweetEdges : List (Nat × Nat × Nat)
  replyEdges : List (Nat × Nat × Nat)
  quoteEdges : List (Nat × Nat × Nat)
  inputUsers : List UserRec
deriving DecidableEq, Repr

/-- The roster computation of `group_users`: deduplicate by user id
keeping the last occurrence, optionally restrict to the largest
discussion component, inner-join the per-user tweet counts, and sort by
tweet count descending. -/
def computeGroupedUsers (discussionOnly directed : Bool) (st : ProcState) :
    List (UserRec × Nat) :=
  let users := dropDuplicatesKeepLast (fun u => u.id) st.inputUsers
  let users :=
    if discussionOnly then
      users.filter (fun u =>
        (findNodesInDiscussion st.retweetEdges st.replyEdges st.quoteEdges
          directed).contains u.id)
    else users
  let joined := users.filterMap (fun u =>
    (lookupAssoc st.totalTweets u.id).map (fun c => (u, c)))
  insSort (fun a b => decide (b.2 ≤ a.2)) joined

/-- The dense row-id assignment written to `user.elem_ids.json.gz`:
`(user.id, row_id)` in roster order starting at 0. -/
def computeElemIds (discussionOnly directed : Bool) (st : ProcState) :
    List (Nat × Nat) :=
  ((computeGroupedUsers discussionOnly directed st).map (fun p => p.1.id)).enum.map
    (fun q => (q.2, q.1))

/-- The write path of `group_users`: store both artifacts. -/
def groupUsersRecompute (discussionOnly directed : Bool) (st : ProcState) :
    ProcState :=
  { st with
    userUnique := some (computeGroupedUsers discussionOnly directed st)
    elemIds := some (computeElemIds discussionOnly directed st) }

/-- `group_users`: return unchanged when `overwrite` is unset and both
output files exist, otherwise recompute and write both. -/
def groupUsers (discussionOnly directed overwrite : Bool) (st : ProcState) :
    ProcState :=
  if !overwrite && (st.userUnique.isSome && st.elemIds.isSome) then st
  else groupUsersRecompute discussionOnly directed st

/-! ### `dd_from_paths` and the on-disk partitions (claim C9) -/

/-- A file on disk: its byte size and its (abstracted) content. -/
structure FileBlob where
  size : Nat
  content : String
deriving DecidableEq, Repr

/-- The path filter of `dd_from_paths`: keep a path iff it exists and its
size is at least `min_size`. -/
def ddFromPathsValid (stat : String → Option FileBlob) (paths : List String)
    (minSize : Nat) : List String :=
  paths.filter (fun p =>
    match stat p with
    | none => false
    | some b => minSize ≤ b.size)

/-- `dd.read_json(valid_paths)`: the data actually read — each valid path
with its content, in order.  Every aggregation stage consumes this. -/
def ddFromPathsRead (stat : String → Option FileBlob) (paths : List String)
    (minSize : Nat) : List (String × String) :=
  (ddFromPathsValid stat paths minSize).map (fun p =>
    (p, ((stat p).map FileBlob.content).getD ""))

/-- A concrete two-file directory: `a` is present but only 10 bytes,
`b` is a healthy 200-byte partition. -/
def statWithSmallFile : String → Option FileBlob := fun p =>
  if p = "a" then some { size := 10, content := "x" }
  else if p = "b" then some { size := 200, content := "y" }
  else none

/-- The same directory with the small file `a` deleted. -/
def statWithoutSmallFile : String → Option FileBlob := fun p =>
  if p = "a" then none
  else if p = "b" then some { size := 200, content := "y" }
  else none

/-! ### `group_user_urls` and its call site (claim C6) -/

/-- One row of the per-partition `user_urls.json.gz` tables. -/
structure UrlRow where
  userId : Nat
  domain : String
  frequency : Nat
deriving DecidableEq, Repr

/-- Total frequency of a domain across the raw url rows. -/
def rawDomainFrequency (rows : List UrlRow) (d : String) : Nat :=
  ((rows.filter (fun r => r.domain == d)).map (fun r => r.frequency)).sum

/-- The distinct (user, domain) keys of the url rows, sorted ascending as
pandas `groupby` sorts its group keys. -/
def pairKeys (rows : List UrlRow) : List (Nat × String) :=
  insSort (fun a b => decide (a.1 < b.1 ∨ (a.1 = b.1 ∧ a.2 ≤ b.2)))
    (dedupFirstSeen (rows.map (fun r => (r.userId, r.domain))))

/-- Total frequency of one (user, domain) group. -/
def pairSum (rows : List UrlRow) (p : Nat × String) : Nat :=
  ((rows.filter (fun r => r.userId == p.1 && r.domain == p.2)).map
    (fun r => r.frequency)).sum

/-- `urls_dd.groupby(["user.id", "domain"]).sum()`: one row per
(user, domain) pair — keys sorted ascending as pandas `groupby` sorts —
with summed frequency. -/
def groupPairsSum (rows : List UrlRow) : List UrlRow :=
  (pairKeys rows).map (fun p =>
    { userId := p.1, domain := p.2, frequency := pairSum rows p })

/-- The distinct domains of a url table, sorted ascending. -/
def domainKeys (urls : List UrlRow) : List String :=
  insSort (fun a b => decide (a ≤ b))
    (dedupFirstSeen (urls.map (fun r => r.domain)))

/-- `urls.groupby("domain")["frequency"].sum()`: per-domain totals over
the pair-grouped table, keyed by domain ascending. -/
def urlFrequencyAll (urls : List UrlRow) : List (String × Nat) :=
  (domainKeys urls).map (fun d =>
    (d, ((urls.filter (fun r => r.domain == d)).map (fun r => r.frequency)).sum))

/-- The domain frequency table of `group_user_urls`, `sort_values`
descending. -/
def urlFrequencySorted (rows : List UrlRow) : List (String × Nat) :=
  insSort (fun a b => decide (b.2 ≤ a.2)) (urlFrequencyAll (groupPairsSum rows))

/-- The `user.domains.relevant` vocabulary: domains at or above
`min_freq`, with dense `token_id`s assigned in sorted order. -/
def relevantUrlVocabulary (rows : List UrlRow) (minFreq : Nat) :
    List ((String × Nat) × Nat) :=
  ((urlFrequencySorted rows).filter (fun p => decide (minFreq ≤ p.2))).enum.map
    (fun q => (q.2, q.1))

/-- Largest value of an id mapping plus one (`max(values()) + 1`, the
matrix extent used by the url-matrix build). -/
def maxValueSucc {κ : Type} (l : List (κ × Nat)) : Nat :=
  ((l.map Prod.snd).foldl max 0) + 1

/-- The artifacts produced by `group_user_urls`: the full per-domain
frequency table, the threshold-filtered vocabulary with dense token ids,
and the user × domain count matrix. -/
structure UrlStageOutput where
  allFrequency : List (String × Nat)
  relevantVocabulary : List ((String × Nat) × Nat)
  matrixRows : Nat
  matrixCols : Nat
  matrixCell : Nat → Nat → Nat

/-- `group_user_urls`: group url rows by (user, domain), total per domain,
sort descending, keep domains with frequency at or above `min_freq`,
assign dense token ids, and fill the user × domain matrix cell by cell,
skipping users absent from `elem_to_id`. -/
def groupUserUrls (rows : List UrlRow) (elemToId : List (Nat × Nat))
    (minFreq : Nat) : UrlStageOutput :=
  let urls := groupPairsSum rows
  let urlFrequency := urlFrequencySorted rows
  let relevant := relevantUrlVocabulary rows minFreq
  let urlToId : List (String × Nat) := relevant.map (fun q => (q.1.1, q.2))
  let urlsRelevant := urls.filter (fun r =>
    (relevant.map (fun q => q.1.1)).contains r.domain)
  let cell0 : Nat → Nat → Nat := fun _ _ => 0
  let cell := urlsRelevant.foldl (fun c r =>
    match lookupAssoc elemToId r.userId with
    | none => c
    | some rowId =>
        let colId := (lookupAssoc urlToId r.domain).getD 0
        fun r' c' => if r' = rowId ∧ c' = colId then r.frequency else c r' c') cell0
  { allFrequency := urlFrequency
    relevantVocabulary := relevant
    matrixRows := maxValueSucc elemToId
    matrixCols := maxValueSucc urlToId
    matrixCell := cell }

/-- The url-stage call site in `main` (lines 200-204): the configured
threshold `thresholds.tweet_domains` is read into `min_freq`, but
`group_user_urls` is invoked with the literal `min_freq=50`. -/
def mainUserUrlsStage (thresholdsTweetDomains : Nat) (rows : List UrlRow)
    (elemToId : List (Nat × Nat)) : UrlStageOutput :=
  let minFreq := thresholdsTweetDomains
  groupUserUrls rows elemToId 50

/-! ### `build_network` (claim C7) -/

/-- One row of a merged edge table `user.{type}_edges.all.json.gz`. -/
structure NetEdge where
  source : Nat
  target : Nat
  frequency : Nat
deriving DecidableEq, Repr

/-- Iteration order of a CPython `set` of distinct small nonnegative
integers: `hash(i) = i`, and every key below the initial table size 8
occupies slot `i`, so iteration enumerates the distinct values in
ascending order.  The model is used in that regime. -/
def pySetSmall (l : List Nat) : List Nat :=
  insSort (fun a b => decide (a ≤ b)) (dedupFirstSeen l)

/-- The edges `build_network` keeps: source user present in
`elem_to_id`. -/
def keptEdges (edges : List NetEdge) (elemToId : List (Nat × Nat)) :
    List NetEdge :=
  edges.filter (fun e => (lookupAssoc elemToId e.source).isSome)

/-- The endpoint ids of the kept edges, in Python-set iteration order
(`set(sources) | set(targets)`). -/
def endpointIds (edges : List NetEdge) (elemToId : List (Nat × Nat)) :
    List Nat :=
  pySetSmall ((keptEdges edges elemToId).map (fun e => e.source)
    ++ (keptEdges edges elemToId).map (fun e => e.target))

/-- The endpoint users missing from `elem_to_id`, in set-iteration
order. -/
def nonRosterEndpoints (edges : List NetEdge) (elemToId : List (Nat × Nat)) :
    List Nat :=
  (endpointIds edges elemToId).filter (fun x => (lookupAssoc elemToId x).isNone)

/-- The outputs of `build_network`: the persisted extended id mapping and
the adjacency matrix with its shape. -/
structure NetworkOutput where
  idToNode : List (Nat × Nat)
  rows : Nat
  cols : Nat
  cell : Nat → Nat → Nat

/-- `edges["source"] = edges[source_column].map(id_to_node)` and likewise
for the target: the matrix coordinates of one edge. -/
def rowKey (idToNode : List (Nat × Nat)) (e : NetEdge) : Nat × Nat :=
  ((lookupAssoc idToNode e.source).getD 0,
   (lookupAssoc idToNode e.target).getD 0)

/-- One per-cell assignment `dtm[row.source, row.target] = row.frequency`
into the mutable sparse matrix. -/
def assignCell (κ : NetEdge → Nat × Nat) (c : Nat → Nat → Nat) (e : NetEdge) :
    Nat → Nat → Nat :=
  fun r' c' => if r' = (κ e).1 ∧ c' = (κ e).2 then e.frequency else c r' c'

/-- The extended id mapping of `build_network`: `elem_to_id` updated with
the non-roster endpoint users at ids `len(elem_to_id)`, `len+1`, …. -/
def extendedIdToNode (edges : List NetEdge) (elemToId : List (Nat × Nat)) :
    List (Nat × Nat) :=
  elemToId ++ (nonRosterEndpoints edges elemToId).enum.map
    (fun p => (p.2, elemToId.length + p.1))

/-- `build_network`: keep roster-sourced edges, extend `elem_to_id` with
the remaining endpoint users at the next consecutive ids, and fill a
(len elem_to_id) × (len id_to_node) matrix by per-cell assignment of each
edge's frequency. -/
def buildNetwork (edges : List NetEdge) (elemToId : List (Nat × Nat)) :
    NetworkOutput :=
  let kept := keptEdges edges elemToId
  let idToNode := extendedIdToNode edges elemToId
  let cell0 : Nat → Nat → Nat := fun _ _ => 0
  { idToNode := idToNode
    rows := elemToId.length
    cols := idToNode.length
    cell := kept.foldl (assignCell (rowKey idToNode)) cell0 }

/-- The id extension demanded by the claim's wording: non-roster target
users appended after all roster ids in first-seen (edge-table) order. -/
def firstSeenExtension (edges : List NetEdge) (elemToId : List (Nat × Nat)) :
    List (Nat × Nat) :=
  let firstSeen := (dedupFirstSeen ((keptEdges edges elemToId).map
    (fun e => e.target))).filter (fun x => (lookupAssoc elemToId x).isNone)
  elemToId ++ firstSeen.enum.map (fun p => (p.2, elemToId.length + p.1))

/-- Membership in the output of `filter_dataframe`, unfolded. -/
theorem mem_filterDataframe (cfg : ImporterConfig) (df : List Tweet) (t : Tweet) :
    t ∈ filterDataframe cfg df ↔
      t ∈ df ∧ locationFlag cfg t = true ∧
        ((configureAutomaton cfg).length ≠ 0 → keywordKeep cfg t = true) := by
  unfold filterDataframe
  by_cases h : (configureAutomaton cfg).length ≠ 0
  · rw [if_pos h]
    simp only [List.mem_filter]
    tauto
  · rw [if_neg h]
    simp only [List.mem_filter]
    tauto

/-- Claim C1: for every record batch filtered by `filter_dataframe` with a
non-empty automaton, a location-passing record is kept iff — when search
terms are configured (`terms["patterns"] is not None`) — scanning its text
yields a `"search-term"` match and no `"rejected-term"` match, and — when
no search terms but blacklist terms are configured — no `"rejected-term"`
match is found. -/
theorem C1_keyword_filter_policy (cfg : ImporterConfig) (df : List Tweet) (t : Tweet)
    (hmem : t ∈ df) (hloc : locationFlag cfg t = true)
    (hauto : (configureAutomaton cfg).length ≠ 0) :
    (cfg.termPatterns ≠ none →
      (t ∈ filterDataframe cfg df ↔
        ("search-term" ∈ automatonFindings (configureAutomaton cfg) t.text ∧
         "rejected-term" ∉ automatonFindings (configureAutomaton cfg) t.text)))
    ∧ (cfg.termPatterns = none → cfg.termBlacklist ≠ none →
      (t ∈ filterDataframe cfg df ↔
        "rejected-term" ∉ automatonFindings (configureAutomaton cfg) t.text)) := by
  constructor
  · intro hpat
    rw [mem_filterDataframe]
    have hsome : cfg.termPatterns.isSome = true := Option.isSome_iff_ne_none.mpr hpat
    unfold keywordKeep
    simp [hmem, hloc, hauto, hsome]
  · intro hpat _
    rw [mem_filterDataframe]
    have hnone : cfg.termPatterns.isSome = false := by simp [hpat]
    unfold keywordKeep
    simp [hmem, hloc, hauto, hnone]

/-- Applies `C1_keyword_filter_policy` to a concrete configuration with one
search term `"alpha"` and one rejected term `"beta"`: a record whose text
contains both is not kept. -/
theorem C1_keyword_filter_policy_witness :
    let cfg : ImporterConfig :=
      { acceptUnknown := true, gazetteerPatterns := none, locationBlacklist := none,
        termPatterns := some ["alpha"], termBlacklist := some ["beta"] }
    let t : Tweet := { id := some 1, location := none, text := "x alpha beta y" }
    t ∉ filterDataframe cfg [t] := by
  intro cfg t hmem
  have h := (C1_keyword_filter_policy cfg [t] t (by decide) (by decide) (by decide)).1
    (by decide)
  exact ((h.mp hmem).2) (by decide)

/-- Claim C2: `filter_dataframe` returns a subset of the input, every kept
record has a non-absent `id`, a blacklist-matching location is dropped,
with `accept_unknown` false and gazetteers configured only
gazetteer-matching locations are kept, and with `accept_unknown` true the
location stage never consults the gazetteer. -/
theorem C2_location_filter_policy (cfg : ImporterConfig) (df : List Tweet) :
    (filterDataframe cfg df).Sublist df
    ∧ (∀ t ∈ filterDataframe cfg df, t.id.isSome = true)
    ∧ (∀ bl, cfg.locationBlacklist = some bl →
        ∀ t ∈ filterDataframe cfg df, seriesStrContainsEqTrue bl t.location = false)
    ∧ (cfg.acceptUnknown = false →
        ∀ pats, cfg.gazetteerPatterns = some pats →
          ∀ t ∈ filterDataframe cfg df, seriesStrContainsEqTrue pats t.location = true)
    ∧ (cfg.acceptUnknown = true →
        ∀ t, locationFlag cfg t =
          (t.id.isSome && !(match cfg.locationBlacklist with
                            | some pats => seriesStrContainsEqTrue pats t.location
                            | none => false))) := by
  have hsub : (filterDataframe cfg df).Sublist df := by
    unfold filterDataframe
    by_cases h : (configureAutomaton cfg).length ≠ 0
    · rw [if_pos h]
      exact ((List.filter_sublist _).trans (List.filter_sublist _))
    · rw [if_neg h]
      exact List.filter_sublist _
  have hflag : ∀ t ∈ filterDataframe cfg df, locationFlag cfg t = true := by
    intro t ht
    exact ((mem_filterDataframe cfg df t).mp ht).2.1
  refine ⟨hsub, ?_, ?_, ?_, ?_⟩
  · intro t ht
    have := hflag t ht
    unfold locationFlag at this
    simp only [Bool.and_eq_true] at this
    exact this.1.1
  · intro bl hbl t ht
    have := hflag t ht
    unfold locationFlag at this
    rw [hbl] at this
    simp only [Bool.and_eq_true, Bool.not_eq_true'] at this
    exact this.2
  · intro hau pats hpats t ht
    have := hflag t ht
    unfold locationFlag at this
    rw [hau, hpats] at this
    simp only [Bool.not_false, if_true, Bool.and_eq_true] at this
    exact this.1.2
  · intro hau t
    unfold locationFlag
    rw [hau]
    cases h : cfg.locationBlacklist with
    | none => simp
    | some pats => simp

/-- Applies `C2_location_filter_policy` with a concrete blacklist and
gazetteer under `accept_unknown = false`: the kept record matches the
gazetteer and not the blacklist. -/
theorem C2_location_filter_policy_witness :
    let cfg : ImporterConfig :=
      { acceptUnknown := false, gazetteerPatterns := some ["ny"],
        locationBlacklist := some ["mars"], termPatterns := none,
        termBlacklist := none }
    let t : Tweet := { id := some 7, location := some "NY, USA", text := "hi" }
    (filterDataframe cfg [t]).Sublist [t]
    ∧ seriesStrContainsEqTrue ["mars"] t.location = false
    ∧ seriesStrContainsEqTrue ["ny"] t.location = true := by
  intro cfg t
  have h := C2_location_filter_policy cfg [t]
  have hmem : t ∈ filterDataframe cfg [t] := by decide
  exact ⟨h.1, h.2.2.1 ["mars"] rfl t hmem, h.2.2.2.1 rfl ["ny"] rfl t hmem⟩

/-- Claim C3: a corrupted file, or a file whose filtered result lacks a
`text` column or has no rows, contributes exactly zero records; a
successfully processed file contributes its filtered length; and the
batch total of `import_files` is the sum of the per-file counts. -/
theorem C3_import_resilience (cfg : ImporterConfig) (files : List RawFile) :
    importFilesCount cfg files = (files.map (readFileRecordCount cfg)).sum
    ∧ readFileRecordCount cfg .corrupt = 0
    ∧ (∀ ht recs, ht = false ∨ (readTweetDataframe cfg recs).isEmpty = true →
        readFileRecordCount cfg (.ok ht recs) = 0)
    ∧ (∀ recs, (readTweetDataframe cfg recs).isEmpty = false →
        readFileRecordCount cfg (.ok true recs) =
          (readTweetDataframe cfg recs).length) := by
  refine ⟨rfl, rfl, ?_, ?_⟩
  · intro ht recs h
    unfold readFileRecordCount
    rcases h with h | h
    · simp [h]
    · simp [h]
  · intro recs h
    unfold readFileRecordCount
    simp [h]

/-- Applies `C3_import_resilience` to a batch of three concrete files —
one corrupted, one empty, one valid with two records: the total is the
valid file's record count. -/
theorem C3_import_resilience_witness :
    let cfg : ImporterConfig :=
      { acceptUnknown := true, gazetteerPatterns := none, locationBlacklist := none,
        termPatterns := none, termBlacklist := none }
    let t1 : Tweet := { id := some 1, location := none, text := "a" }
    let t2 : Tweet := { id := some 2, location := none, text := "b" }
    let files : List RawFile := [.corrupt, .ok false [], .ok true [t1, t2]]
    importFilesCount cfg files = 2
    ∧ readFileRecordCount cfg (.ok false []) = 0 := by
  intro cfg t1 t2 files
  have h := C3_import_resilience cfg files
  refine ⟨?_, h.2.2.1 false [] (Or.inl rfl)⟩
  rw [h.1]
  have h2 := h.2.2.2 [t1, t2] (by decide)
  simp only [List.map, List.sum_cons, h.2.1, h.2.2.1 false [] (Or.inl rfl), h2]
  decide

/-! ### Helper lemmas for the classifier claims -/

theorem le_foldl_max_init (xs : List ℚ) (a : ℚ) : a ≤ xs.foldl max a := by
  induction xs generalizing a with
  | nil => exact le_refl a
  | cons x xs ih => exact le_trans (le_max_left a x) (ih (max a x))

theorem le_foldl_max_mem (xs : List ℚ) (a x : ℚ) (hx : x ∈ xs) :
    x ≤ xs.foldl max a := by
  induction xs generalizing a with
  | nil => cases hx
  | cons y ys ih =>
      rcases List.mem_cons.mp hx with h | h
      · subst h
        exact le_trans (le_max_right a x) (le_foldl_max_init ys (max a x))
      · exact ih (max a y) h

theorem foldl_max_eq_or_mem (xs : List ℚ) (a : ℚ) :
    xs.foldl max a = a ∨ xs.foldl max a ∈ xs := by
  induction xs generalizing a with
  | nil => exact Or.inl rfl
  | cons x xs ih =>
      rcases ih (max a x) with h | h
      · rcases max_choice a x with hm | hm
        · exact Or.inl (by rw [List.foldl_cons, h, hm])
        · exact Or.inr (by rw [List.foldl_cons, h, hm]; exact List.mem_cons_self x xs)
      · exact Or.inr (List.mem_cons_of_mem x h)

theorem rowMax_mem (l : List ℚ) (h : l ≠ []) : rowMax l ∈ l := by
  cases l with
  | nil => exact absurd rfl h
  | cons x xs =>
      show xs.foldl max x ∈ x :: xs
      rcases foldl_max_eq_or_mem xs x with h1 | h1
      · rw [h1]; exact List.mem_cons_self x xs
      · exact List.mem_cons_of_mem x h1

theorem le_rowMax (l : List ℚ) (x : ℚ) (hx : x ∈ l) : x ≤ rowMax l := by
  cases l with
  | nil => cases hx
  | cons y ys =>
      show x ≤ ys.foldl max y
      rcases List.mem_cons.mp hx with h | h
      · subst h; exact le_foldl_max_init ys x
      · exact le_foldl_max_mem ys y x h

theorem find?_first_index {α : Type} (p : α → Bool) (l : List α) (x : α)
    (h : l.find? p = some x) :
    ∃ j : Nat, l[j]? = some x ∧ p x = true ∧
      ∀ k, k < j → ∀ y : α, l[k]? = some y → p y = false := by
  induction l with
  | nil => simp at h
  | cons a l ih =>
      by_cases hp : p a = true
      · rw [List.find?_cons_of_pos _ hp] at h
        refine ⟨0, ?_, ?_, ?_⟩
        · simpa using congrArg some (Option.some.inj h)
        · rw [← Option.some.inj h]; exact hp
        · intro k hk; omega
      · rw [List.find?_cons_of_neg _ hp] at h
        obtain ⟨j, hj1, hj2, hj3⟩ := ih h
        refine ⟨j + 1, by simpa using hj1, hj2, ?_⟩
        intro k hk y hy
        cases k with
        | zero =>
            simp only [List.getElem?_cons_zero] at hy
            rw [← Option.some.inj hy]
            exact Bool.not_eq_true _ ▸ (by simpa using hp)
        | succ k' =>
            simp only [List.getElem?_cons_succ] at hy
            exact hj3 k' (by omega) y hy

/-- Claim C4: `classify_and_label` records per row the row-maximum
probability and tags the source `"xgb"`; rows with maximal probability
strictly below `min_probability` get `non_labeled_value`, rows at or above
the threshold keep the first class attaining the maximum. -/
theorem C4_classify_and_label (classes : List String) (probas : List (List ℚ))
    (minProbability : ℚ) (nonLabeledValue : Option String)
    (i : Nat) (ps : List ℚ) (hps : probas[i]? = some ps) (hne : ps ≠ [])
    (hlen : classes.length = ps.length) :
    ∃ row : LabeledRow,
      (classifyAndLabel classes probas minProbability nonLabeledValue)[i]? = some row
      ∧ row.source = "xgb"
      ∧ row.maxProbability ∈ ps
      ∧ (∀ x ∈ ps, x ≤ row.maxProbability)
      ∧ (row.maxProbability < minProbability → row.label = nonLabeledValue)
      ∧ (minProbability ≤ row.maxProbability →
          ∃ (j : Nat) (c : String), row.label = some c ∧ classes[j]? = some c
            ∧ ps[j]? = some row.maxProbability
            ∧ ∀ k, k < j → ps[k]? ≠ some row.maxProbability) := by
  classical
  set f : List ℚ → LabeledRow := fun ps =>
    let m := rowMax ps
    let row : LabeledRow :=
      { maxProbability := m, label := idxmaxLabel classes ps, source := "xgb" }
    if m < minProbability then { row with label := nonLabeledValue } else row with hf
  have hrow : (classifyAndLabel classes probas minProbability nonLabeledValue)[i]?
      = some (f ps) := by
    unfold classifyAndLabel
    rw [List.getElem?_map, hps]
    rfl
  have hmaxm : (f ps).maxProbability = rowMax ps := by
    rw [hf]
    by_cases h : rowMax ps < minProbability <;> simp [h]
  have hsrc : (f ps).source = "xgb" := by
    rw [hf]
    by_cases h : rowMax ps < minProbability <;> simp [h]
  refine ⟨f ps, hrow, hsrc, ?_, ?_, ?_, ?_⟩
  · rw [hmaxm]; exact rowMax_mem ps hne
  · intro x hx; rw [hmaxm]; exact le_rowMax ps x hx
  · intro hlt
    rw [hmaxm] at hlt
    rw [hf]
    simp [hlt]
  · intro hge
    rw [hmaxm] at hge
    have hnlt : ¬ rowMax ps < minProbability := not_lt.mpr hge
    have hlab : (f ps).label = idxmaxLabel classes ps := by
      rw [hf]; simp [hnlt]
    -- the find? over the zip succeeds because the maximum is attained
    obtain ⟨jj, hjj⟩ := List.getElem?_of_mem (rowMax_mem ps hne)
    have hjjlt : jj < ps.length := (List.getElem?_eq_some.mp hjj).1
    have hcls : ∃ c, classes[jj]? = some c := by
      have : jj < classes.length := by omega
      exact ⟨classes[jj], List.getElem?_eq_some.mpr ⟨this, rfl⟩⟩
    obtain ⟨c0, hc0⟩ := hcls
    have hzmem : (c0, rowMax ps) ∈ classes.zip ps := by
      have : (classes.zip ps)[jj]? = some (c0, rowMax ps) :=
        List.getElem?_zip_eq_some.mpr ⟨hc0, hjj⟩
      exact List.getElem?_mem this
    have hfind : ((classes.zip ps).find?
        (fun cp => decide (cp.2 = rowMax ps))).isSome = true := by
      rw [List.find?_isSome]
      exact ⟨(c0, rowMax ps), hzmem, by simp⟩
    obtain ⟨cp, hcp⟩ := Option.isSome_iff_exists.mp hfind
    obtain ⟨j, hj1, hj2, hj3⟩ := find?_first_index _ _ _ hcp
    have hcp2 : cp.2 = rowMax ps := by simpa using hj2
    obtain ⟨hjc, hjp⟩ := List.getElem?_zip_eq_some.mp hj1
    refine ⟨j, cp.1, ?_, hjc, ?_, ?_⟩
    · rw [hlab]
      unfold idxmaxLabel
      rw [hcp]
      rfl
    · rw [hmaxm, ← hcp2]; exact hjp
    · intro k hk hcon
      rw [hmaxm] at hcon
      have hklt : k < ps.length := by
        have := (List.getElem?_eq_some.mp hjp).1
        have hjlen : j < ps.length := by
          have hz := (List.getElem?_eq_some.mp hj1).1
          rw [List.length_zip] at hz
          omega
        omega
      have hkc : k < classes.length := by omega
      have hzk : (classes.zip ps)[k]? = some (classes[k], rowMax ps) :=
        List.getElem?_zip_eq_some.mpr
          ⟨List.getElem?_eq_some.mpr ⟨hkc, rfl⟩, hcon⟩
      have := hj3 k hk _ hzk
      simp at this

/-- Applies `C4_classify_and_label` to one row with best probability 3/5
under threshold 9/10: the sentinel replaces the label; the concrete
output is also evaluated directly. -/
theorem C4_classify_and_label_witness :
    (∃ row, (classifyAndLabel ["no", "yes"] [[(3 : ℚ)/5, 3/10]] (9/10)
        (some "undisclosed"))[0]? = some row
      ∧ row.source = "xgb"
      ∧ (row.maxProbability < 9/10 → row.label = some "undisclosed"))
    ∧ (classifyAndLabel ["no", "yes"] [[(3 : ℚ)/5, 3/10]] (9/10)
        (some "undisclosed")).map (fun r => r.label) = [some "undisclosed"] := by
  constructor
  · obtain ⟨row, h1, h2, _, _, h5, _⟩ :=
      C4_classify_and_label ["no", "yes"] [[(3 : ℚ)/5, 3/10]] (9/10)
        (some "undisclosed") 0 [(3 : ℚ)/5, 3/10] rfl (by simp) rfl
    exact ⟨row, h1, h2, h5⟩
  · simp [classifyAndLabel, rowMax, idxmaxLabel]
    norm_num

/-- Claim C10: `cross_validate` never forwards `random_state` to the fold
splitter — `StratifiedKFold` is constructed from `n_splits` alone,
unshuffled — so for fixed labels, stratification key and fold count the
train/test index partitions are identical for any two random states. -/
theorem C10_cross_validate_random_state_unused
    (y : List (Option String)) (stratifyOn : Option (List String))
    (nSplits : Nat) (nullName : String) (rs1 rs2 : Nat) :
    crossValidateFolds y stratifyOn nSplits rs1 nullName =
      crossValidateFolds y stratifyOn nSplits rs2 nullName := rfl

/-- Claim C5: `find_nodes_in_discussion` passes the literal
`directed=False` to both the graph construction and the component
labelling, so the threaded `directed` flag has no influence on the
returned largest-component user set. -/
theorem C5_discussion_directed_flag_ignored
    (rt rp qt : List (Nat × Nat × Nat)) (d1 d2 : Bool) :
    findNodesInDiscussion rt rp qt d1 = findNodesInDiscussion rt rp qt d2 := rfl

/-- Claim C9: `dd_from_paths` silently drops paths that are missing or
strictly smaller than 100 bytes, and every stage consuming its output
treats a small-but-present partition exactly like a missing one. -/
theorem C9_dd_from_paths_small_files
    (stat1 stat2 : String → Option FileBlob) (paths : List String) (p0 : String)
    (b0 : FileBlob) (hsize : b0.size < 100)
    (h1 : stat1 p0 = some b0) (h2 : stat2 p0 = none)
    (hagree : ∀ q, q ≠ p0 → stat1 q = stat2 q) :
    (∀ p ∈ paths, p ∉ ddFromPathsValid stat1 paths 100 ↔
        (stat1 p = none ∨ ∃ b, stat1 p = some b ∧ b.size < 100))
    ∧ ddFromPathsRead stat1 paths 100 = ddFromPathsRead stat2 paths 100
    ∧ ∀ (β : Type) (stage : List (String × String) → β),
        stage (ddFromPathsRead stat1 paths 100) =
          stage (ddFromPathsRead stat2 paths 100) := by
  have hpred : ∀ p, p ≠ p0 →
      (fun p => match stat1 p with
        | none => false
        | some b => decide (100 ≤ b.size)) p =
      (fun p => match stat2 p with
        | none => false
        | some b => decide (100 ≤ b.size)) p := by
    intro p hp
    simp only [hagree p hp]
  have hvalid : ddFromPathsValid stat1 paths 100 = ddFromPathsValid stat2 paths 100 := by
    unfold ddFromPathsValid
    apply List.filter_congr
    intro p _
    by_cases hp : p = p0
    · subst hp
      rw [h1, h2]
      simp
      omega
    · exact hpred p hp
  have hp0notin : p0 ∉ ddFromPathsValid stat1 paths 100 := by
    intro hmem
    rw [ddFromPathsValid, List.mem_filter] at hmem
    rw [h1] at hmem
    have := hmem.2
    simp at this
    omega
  refine ⟨?_, ?_, ?_⟩
  · intro p hp
    rw [ddFromPathsValid, List.mem_filter]
    constructor
    · intro hnot
      cases hs : stat1 p with
      | none => exact Or.inl rfl
      | some b =>
          refine Or.inr ⟨b, rfl, ?_⟩
          by_contra hge
          exact hnot ⟨hp, by rw [hs]; simpa using (by omega : 100 ≤ b.size)⟩
    · rintro (hs | ⟨b, hs, hb⟩) ⟨_, hpred2⟩
      · rw [hs] at hpred2; simp at hpred2
      · rw [hs] at hpred2; simp at hpred2; omega
  · unfold ddFromPathsRead
    rw [hvalid]
    apply List.map_congr_left
    intro p hmem
    have hp : p ≠ p0 := by
      intro h
      subst h
      rw [← hvalid] at hmem
      exact hp0notin hmem
    rw [hagree p hp]
  · intro β stage
    apply congrArg
    unfold ddFromPathsRead
    rw [hvalid]
    apply List.map_congr_left
    intro p hmem
    have hp : p ≠ p0 := by
      intro h
      subst h
      rw [← hvalid] at hmem
      exact hp0notin hmem
    rw [hagree p hp]

/-- Applies `C9_dd_from_paths_small_files` to the concrete directory where
`a` has 10 bytes: the reads with and without `a` coincide, and both
evaluate to the single healthy partition `b`. -/
theorem C9_dd_from_paths_small_files_witness :
    ddFromPathsRead statWithSmallFile ["a", "b"] 100 =
      ddFromPathsRead statWithoutSmallFile ["a", "b"] 100
    ∧ ddFromPathsRead statWithSmallFile ["a", "b"] 100 = [("b", "y")] := by
  have h := C9_dd_from_paths_small_files statWithSmallFile statWithoutSmallFile
    ["a", "b"] "a" { size := 10, content := "x" } (by decide) rfl rfl
    (by
      intro q hq
      simp only [statWithSmallFile, statWithoutSmallFile, if_neg hq])
  exact ⟨h.2.1, by decide⟩

/-! ### Helper lemmas on the deterministic sort and deduplication -/

theorem mem_insertSorted {α : Type} (le : α → α → Bool) (x a : α) (l : List α) :
    a ∈ insertSorted le x l ↔ a = x ∨ a ∈ l := by
  induction l with
  | nil => simp [insertSorted]
  | cons y ys ih =>
      unfold insertSorted
      by_cases h : le x y = true
      · rw [if_pos h]
        simp [List.mem_cons]
      · rw [if_neg h]
        simp only [List.mem_cons, ih]
        tauto

theorem mem_insSort {α : Type} (le : α → α → Bool) (a : α) (l : List α) :
    a ∈ insSort le l ↔ a ∈ l := by
  induction l with
  | nil => simp [insSort]
  | cons x xs ih =>
      unfold insSort
      rw [mem_insertSorted, ih, List.mem_cons]

theorem insertSorted_perm {α : Type} (le : α → α → Bool) (x : α) (l : List α) :
    (insertSorted le x l).Perm (x :: l) := by
  induction l with
  | nil => exact List.Perm.refl _
  | cons y ys ih =>
      unfold insertSorted
      by_cases h : le x y = true
      · rw [if_pos h]
      · rw [if_neg h]
        exact (List.Perm.cons y ih).trans (List.Perm.swap x y ys)

theorem insSort_perm {α : Type} (le : α → α → Bool) (l : List α) :
    (insSort le l).Perm l := by
  induction l with
  | nil => exact List.Perm.refl _
  | cons x xs ih =>
      exact (insertSorted_perm le x (insSort le xs)).trans (List.Perm.cons x ih)

theorem nodup_insSort {α : Type} (le : α → α → Bool) (l : List α)
    (h : l.Nodup) : (insSort le l).Nodup :=
  (insSort_perm le l).nodup_iff.mpr h

theorem mem_dedupFirstSeenAux {α : Type} [DecidableEq α] (seen l : List α)
    (a : α) : a ∈ dedupFirstSeenAux seen l ↔ a ∈ l ∧ a ∉ seen := by
  induction l generalizing seen with
  | nil => simp [dedupFirstSeenAux]
  | cons x xs ih =>
      unfold dedupFirstSeenAux
      by_cases hx : x ∈ seen
      · rw [if_pos hx, ih seen, List.mem_cons]
        by_cases hax : a = x
        · subst hax; tauto
        · tauto
      · rw [if_neg hx, List.mem_cons, ih (x :: seen), List.mem_cons, List.mem_cons]
        by_cases hax : a = x
        · subst hax; tauto
        · tauto

theorem mem_dedupFirstSeen {α : Type} [DecidableEq α] (l : List α) (a : α) :
    a ∈ dedupFirstSeen l ↔ a ∈ l := by
  rw [dedupFirstSeen, mem_dedupFirstSeenAux]
  simp

theorem nodup_dedupFirstSeenAux {α : Type} [DecidableEq α] (seen l : List α) :
    (dedupFirstSeenAux seen l).Nodup := by
  induction l generalizing seen with
  | nil => simp [dedupFirstSeenAux]
  | cons x xs ih =>
      unfold dedupFirstSeenAux
      by_cases hx : x ∈ seen
      · rw [if_pos hx]; exact ih seen
      · rw [if_neg hx]
        refine List.nodup_cons.mpr ⟨?_, ih (x :: seen)⟩
        intro hmem
        exact ((mem_dedupFirstSeenAux (x :: seen) xs x).mp hmem).2
          (List.mem_cons_self x seen)

theorem nodup_dedupFirstSeen {α : Type} [DecidableEq α] (l : List α) :
    (dedupFirstSeen l).Nodup := nodup_dedupFirstSeenAux [] l

/-! ### Fiber-sum lemmas for the grouped frequency tables -/

theorem sum_map_zero {α : Type} (l : List α) :
    (l.map (fun _ => (0 : Nat))).sum = 0 := by
  induction l with
  | nil => rfl
  | cons x xs ih => simp [ih]

theorem sum_map_add {α : Type} (f g : α → Nat) (l : List α) :
    (l.map (fun a => f a + g a)).sum = (l.map f).sum + (l.map g).sum := by
  induction l with
  | nil => rfl
  | cons x xs ih => simp [ih]; omega

theorem sum_ite_key {β : Type} [DecidableEq β] (ps : List β) (b : β) (v : Nat)
    (hnd : ps.Nodup) :
    (ps.map (fun p => if b = p then v else 0)).sum = if b ∈ ps then v else 0 := by
  induction ps with
  | nil => simp
  | cons p ps ih =>
      rw [List.nodup_cons] at hnd
      by_cases hb : b = p
      · subst hb
        simp only [List.map_cons, if_pos rfl, List.sum_cons, List.mem_cons]
        have : (ps.map (fun p => if b = p then v else 0)).sum = 0 := by
          rw [ih hnd.2, if_neg hnd.1]
        simp [this]
      · simp only [List.map_cons, if_neg hb, List.sum_cons, List.mem_cons,
          Nat.zero_add, ih hnd.2]
        have : (b = p ∨ b ∈ ps) ↔ b ∈ ps := by tauto
        rw [if_congr this rfl rfl]

theorem sum_fiber {α β : Type} [DecidableEq β]
    (key : α → β) (f : α → Nat)
    (l : List α) (ps : List β) (hnd : ps.Nodup) :
    (ps.map (fun p => ((l.filter (fun r => decide (key r = p))).map f).sum)).sum
      = ((l.filter (fun r => decide (key r ∈ ps))).map f).sum := by
  induction l with
  | nil =>
      simp only [List.filter_nil, List.map_nil, List.sum_nil]
      exact sum_map_zero ps
  | cons r l ih =>
      have hstep : ∀ p : β,
          ((List.filter (fun x => decide (key x = p)) (r :: l)).map f).sum
            = (if key r = p then f r else 0)
              + ((List.filter (fun x => decide (key x = p)) l).map f).sum := by
        intro p
        by_cases h : key r = p
        · rw [List.filter_cons_of_pos (by simpa using h), if_pos h]
          simp
        · rw [List.filter_cons_of_neg (by simpa using h), if_neg h]
          simp
      have h2 : (ps.map (fun p =>
          ((List.filter (fun x => decide (key x = p)) (r :: l)).map f).sum))
          = ps.map (fun p => (if key r = p then f r else 0)
              + ((List.filter (fun x => decide (key x = p)) l).map f).sum) :=
        List.map_congr_left (fun p _ => hstep p)
      rw [h2, sum_map_add, sum_ite_key ps (key r) (f r) hnd, ih]
      by_cases h : key r ∈ ps
      · rw [if_pos h, List.filter_cons_of_pos (by simpa using h)]
        simp only [List.map_cons, List.sum_cons]
      · rw [if_neg h, List.filter_cons_of_neg (by simpa using h)]
        simp only [Nat.zero_add]

/-! ### The url-domain grouping (claim C6) -/

theorem mem_pairKeys (rows : List UrlRow) (r : UrlRow) (hr : r ∈ rows) :
    (r.userId, r.domain) ∈ pairKeys rows := by
  rw [pairKeys, mem_insSort, mem_dedupFirstSeen]
  exact List.mem_map_of_mem _ hr

theorem nodup_pairKeys (rows : List UrlRow) : (pairKeys rows).Nodup :=
  nodup_insSort _ _ (nodup_dedupFirstSeen _)

theorem grouped_filter_domain (rows : List UrlRow) (d : String) :
    (groupPairsSum rows).filter (fun r => r.domain == d)
      = ((pairKeys rows).filter (fun p => p.2 == d)).map
          (fun p => { userId := p.1, domain := p.2,
                      frequency := pairSum rows p }) := by
  rw [groupPairsSum, List.map_filter]
  rfl

theorem grouped_domain_sum (rows : List UrlRow) (d : String) :
    (((groupPairsSum rows).filter (fun r => r.domain == d)).map
      (fun r => r.frequency)).sum = rawDomainFrequency rows d := by
  have hnd : ((pairKeys rows).filter (fun p => p.2 == d)).Nodup :=
    (nodup_pairKeys rows).filter _
  rw [grouped_filter_domain, List.map_map]
  have h1 : (((pairKeys rows).filter (fun p => p.2 == d)).map
      ((fun r : UrlRow => r.frequency) ∘
        (fun p : Nat × String =>
          ({ userId := p.1, domain := p.2,
             frequency := pairSum rows p } : UrlRow)))) =
      ((pairKeys rows).filter (fun p => p.2 == d)).map (fun p =>
        ((rows.filter
            (fun r => decide ((r.userId, r.domain) = p))).map
          (fun r => r.frequency)).sum) := by
    apply List.map_congr_left
    intro p _
    show pairSum rows p = _
    rw [pairSum]
    congr 1
    apply congrArg
    apply List.filter_congr
    intro r _
    by_cases h : (r.userId, r.domain) = p
    · have hu : r.userId = p.1 := congrArg Prod.fst h
      have hd2 : r.domain = p.2 := congrArg Prod.snd h
      simp [h, hu, hd2]
    · have hno : ¬(r.userId = p.1 ∧ r.domain = p.2) := by
        intro hc
        exact h (Prod.ext_iff.mpr ⟨hc.1, hc.2⟩)
      rcases not_and_or.mp hno with hh | hh <;> simp [h, hh]
  rw [h1,
    sum_fiber (β := Nat × String) (fun r => (r.userId, r.domain))
      (fun r => r.frequency) rows _ hnd,
    rawDomainFrequency]
  congr 1
  apply congrArg
  apply List.filter_congr
  intro r hr
  have hmem : ((r.userId, r.domain) ∈ (pairKeys rows).filter (fun p => p.2 == d))
      ↔ r.domain = d := by
    rw [List.mem_filter]
    constructor
    · rintro ⟨_, h⟩
      simpa using h
    · intro h
      exact ⟨mem_pairKeys rows r hr, by simpa using h⟩
  by_cases hd : r.domain = d
  · have hm := mem_pairKeys rows r hr
    rw [hd] at hm
    simp [hd, List.mem_filter, hm]
  · simp [hmem, hd]

theorem mem_domainKeys_grouped (rows : List UrlRow) (d : String) :
    d ∈ domainKeys (groupPairsSum rows) ↔
      d ∈ rows.map (fun r => r.domain) := by
  rw [domainKeys, mem_insSort, mem_dedupFirstSeen, groupPairsSum, List.map_map]
  simp only [List.mem_map]
  constructor
  · rintro ⟨p, hp, rfl⟩
    rw [pairKeys, mem_insSort, mem_dedupFirstSeen] at hp
    obtain ⟨r, hr, hkey⟩ := List.mem_map.mp hp
    exact ⟨r, hr, by rw [← hkey]; exact rfl⟩
  · rintro ⟨r, hr, rfl⟩
    exact ⟨(r.userId, r.domain), mem_pairKeys rows r hr, rfl⟩

/-- Claim C6: `group_user_urls` keeps exactly the domains whose summed
frequency is at or above its `min_freq` parameter, and since `main`
invokes it with the literal `min_freq=50`, the persisted url-stage outputs
(relevant vocabulary and matrix included) are identical for any two values
of `thresholds.tweet_domains`. -/
theorem C6_group_user_urls_threshold (rows : List UrlRow)
    (elemToId : List (Nat × Nat)) (minFreq : Nat) (d : String) (t1 t2 : Nat) :
    mainUserUrlsStage t1 rows elemToId = mainUserUrlsStage t2 rows elemToId
    ∧ (d ∈ (groupUserUrls rows elemToId minFreq).relevantVocabulary.map
          (fun q => q.1.1)
        ↔ (d ∈ rows.map (fun r => r.domain)
            ∧ minFreq ≤ rawDomainFrequency rows d)) := by
  constructor
  · rfl
  · show d ∈ (relevantUrlVocabulary rows minFreq).map (fun q => q.1.1) ↔ _
    rw [relevantUrlVocabulary, List.map_map]
    rw [show ((fun q : (String × Nat) × Nat => q.1.1) ∘
          (fun q : Nat × (String × Nat) => (q.2, q.1)))
        = (fun p : String × Nat => p.1) ∘ Prod.snd from rfl]
    rw [← List.map_map, List.enum_map_snd, List.mem_map]
    constructor
    · rintro ⟨p, hp, rfl⟩
      rw [List.mem_filter] at hp
      obtain ⟨hmem, hfreq⟩ := hp
      rw [urlFrequencySorted, mem_insSort, urlFrequencyAll, List.mem_map] at hmem
      obtain ⟨d', hd', rfl⟩ := hmem
      refine ⟨(mem_domainKeys_grouped rows d').mp hd', ?_⟩
      rw [← grouped_domain_sum rows d']
      simpa using hfreq
    · rintro ⟨hdom, hfreq⟩
      refine ⟨(d, (((groupPairsSum rows).filter (fun r => r.domain == d)).map
        (fun r => r.frequency)).sum), ?_, rfl⟩
      rw [List.mem_filter]
      constructor
      · rw [urlFrequencySorted, mem_insSort, urlFrequencyAll, List.mem_map]
        exact ⟨d, (mem_domainKeys_grouped rows d).mpr hdom, rfl⟩
      · rw [grouped_domain_sum rows d]
        simpa using hfreq

/-- Claim C8: with `overwrite` unset and both output files present,
`group_users` returns without touching the state (so a second run is
byte-identical to the first); with `overwrite` set or either file
missing, it recomputes and writes both artifacts; and a run followed by
an `overwrite=false` run is always a fixed point. -/
theorem C8_group_users_idempotent_skip (d dir : Bool) (st : ProcState) :
    (st.userUnique.isSome = true → st.elemIds.isSome = true →
      groupUsers d dir false st = st)
    ∧ (∀ ow : Bool, (ow = true ∨ st.userUnique = none ∨ st.elemIds = none) →
        (groupUsers d dir ow st).userUnique = some (computeGroupedUsers d dir st)
        ∧ (groupUsers d dir ow st).elemIds = some (computeElemIds d dir st))
    ∧ (∀ ow : Bool,
        groupUsers d dir false (groupUsers d dir ow st) = groupUsers d dir ow st) := by
  refine ⟨?_, ?_, ?_⟩
  · intro h1 h2
    unfold groupUsers
    simp [h1, h2]
  · intro ow how
    rcases how with how | how | how
    · subst how
      unfold groupUsers
      simp [groupUsersRecompute]
    · unfold groupUsers
      rw [how]
      simp [groupUsersRecompute]
    · unfold groupUsers
      rw [how]
      simp [groupUsersRecompute]
  · intro ow
    by_cases hc : (!ow && (st.userUnique.isSome && st.elemIds.isSome)) = true
    · have hst : groupUsers d dir ow st = st := by
        unfold groupUsers
        rw [if_pos hc]
      rw [hst]
      unfold groupUsers
      simp only [Bool.and_eq_true, Bool.not_eq_true'] at hc
      simp [hc.2.1, hc.2.2]
    · have hst : groupUsers d dir ow st = groupUsersRecompute d dir st := by
        unfold groupUsers
        rw [if_neg hc]
      rw [hst]
      unfold groupUsers groupUsersRecompute
      simp

/-- Applies `C8_group_users_idempotent_skip` to a concrete state holding
both artifacts: the skip run leaves it unchanged, while an `overwrite`
run rewrites the roster computed from the inputs. -/
theorem C8_group_users_idempotent_skip_witness :
    let st : ProcState :=
      { userUnique := some [({ id := 1, payload := "u" }, 5)]
        elemIds := some [(1, 0)]
        totalTweets := [(1, 5)]
        retweetEdges := []
        replyEdges := []
        quoteEdges := []
        inputUsers := [{ id := 1, payload := "u" }] }
    groupUsers false false false st = st
    ∧ (groupUsers false false true st).userUnique
        = some [({ id := 1, payload := "u" }, 5)] := by
  intro st
  have h := C8_group_users_idempotent_skip false false st
  refine ⟨h.1 rfl rfl, ?_⟩
  rw [(h.2.1 true (Or.inl rfl)).1]
  decide

/-! ### Association-lookup lemmas for `build_network` (claim C7) -/

theorem lookupAssoc_isSome_iff {β : Type} (l : List (Nat × β)) (k : Nat) :
    (lookupAssoc l k).isSome = true ↔ k ∈ l.map Prod.fst := by
  simp only [lookupAssoc, Option.isSome_map', List.find?_isSome, List.mem_map,
    beq_iff_eq]

theorem lookupAssoc_eq_some_mem {β : Type} (l : List (Nat × β)) (k : Nat) (v : β)
    (h : lookupAssoc l k = some v) : (k, v) ∈ l := by
  rw [lookupAssoc] at h
  cases hf : l.find? (fun p => p.1 == k) with
  | none => rw [hf] at h; simp at h
  | some p =>
      rw [hf] at h
      have hpv : p.2 = v := by simpa using h
      have hmem := List.mem_of_find?_eq_some hf
      have hk : p.1 = k := by simpa using List.find?_some hf
      have : p = (k, v) := by
        cases p
        simp only [Prod.mk.injEq]
        exact ⟨hk, hpv⟩
      rw [← this]
      exact hmem

theorem lookupAssoc_nodup_mem {β : Type} (l : List (Nat × β)) (k : Nat) (v : β)
    (hnd : (l.map Prod.fst).Nodup) (hmem : (k, v) ∈ l) :
    lookupAssoc l k = some v := by
  induction l with
  | nil => cases hmem
  | cons p l ih =>
      rw [List.map_cons, List.nodup_cons] at hnd
      rcases List.mem_cons.mp hmem with h | h
      · rw [lookupAssoc, ← h, List.find?_cons_of_pos _ (by simp)]
        rfl
      · have hk : k ≠ p.1 := by
          intro he
          exact hnd.1 (he ▸ List.mem_map_of_mem Prod.fst h)
        rw [lookupAssoc, List.find?_cons_of_neg _ (by simpa using fun hc => hk hc.symm)]
        exact ih hnd.2 h

theorem lookupAssoc_append_left {β : Type} (l1 l2 : List (Nat × β)) (k : Nat)
    (h : (lookupAssoc l1 k).isSome = true) :
    lookupAssoc (l1 ++ l2) k = lookupAssoc l1 k := by
  rw [lookupAssoc, List.find?_append]
  rw [lookupAssoc, Option.isSome_map'] at h
  obtain ⟨p, hp⟩ := Option.isSome_iff_exists.mp h
  rw [hp, lookupAssoc, hp]
  rfl

theorem lookupAssoc_getD_inj (l : List (Nat × Nat))
    (hval : (l.map Prod.snd).Nodup) (u w : Nat)
    (hu : (lookupAssoc l u).isSome = true) (hw : (lookupAssoc l w).isSome = true)
    (hne : u ≠ w) :
    (lookupAssoc l u).getD 0 ≠ (lookupAssoc l w).getD 0 := by
  obtain ⟨vu, hvu⟩ := Option.isSome_iff_exists.mp hu
  obtain ⟨vw, hvw⟩ := Option.isSome_iff_exists.mp hw
  rw [hvu, hvw]
  intro he
  simp only [Option.getD_some] at he
  have h1 := lookupAssoc_eq_some_mem l u vu hvu
  have h2 := lookupAssoc_eq_some_mem l w vw hvw
  have := List.inj_on_of_nodup_map hval h1 h2 (by simpa using he)
  exact hne (congrArg Prod.fst this)

theorem foldl_assignCell_ne (κ : NetEdge → Nat × Nat) (l : List NetEdge)
    (c0 : Nat → Nat → Nat) (q : Nat × Nat) (h : ∀ e ∈ l, κ e ≠ q) :
    (l.foldl (assignCell κ) c0) q.1 q.2 = c0 q.1 q.2 := by
  induction l generalizing c0 with
  | nil => rfl
  | cons x xs ih =>
      rw [List.foldl_cons, ih (assignCell κ c0 x) (fun e he => h e (List.mem_cons_of_mem x he))]
      rw [assignCell]
      rw [if_neg]
      rintro ⟨h1, h2⟩
      exact h x (List.mem_cons_self x xs) (Prod.ext_iff.mpr ⟨h1.symm, h2.symm⟩)

theorem foldl_assignCell_eq (κ : NetEdge → Nat × Nat) (l : List NetEdge)
    (c0 : Nat → Nat → Nat) (e : NetEdge) (he : e ∈ l)
    (hdist : l.Pairwise (fun a b => κ a ≠ κ b)) :
    (l.foldl (assignCell κ) c0) (κ e).1 (κ e).2 = e.frequency := by
  induction l generalizing c0 with
  | nil => cases he
  | cons x xs ih =>
      rw [List.pairwise_cons] at hdist
      rcases List.mem_cons.mp he with h | h
      · subst h
        rw [List.foldl_cons,
          foldl_assignCell_ne κ xs (assignCell κ c0 e) (κ e)
            (fun b hb => (hdist.1 b hb).symm)]
        rw [assignCell, if_pos ⟨rfl, rfl⟩]
      · rw [List.foldl_cons]
        exact ih (assignCell κ c0 x) h hdist.2

theorem mem_endpointIds (edges : List NetEdge) (elemToId : List (Nat × Nat))
    (u : Nat) :
    u ∈ endpointIds edges elemToId ↔
      (u ∈ (keptEdges edges elemToId).map (fun e => e.source)
        ∨ u ∈ (keptEdges edges elemToId).map (fun e => e.target)) := by
  rw [endpointIds, pySetSmall, mem_insSort, mem_dedupFirstSeen, List.mem_append]

theorem buildNetwork_idToNode (edges : List NetEdge) (elemToId : List (Nat × Nat)) :
    (buildNetwork edges elemToId).idToNode = extendedIdToNode edges elemToId := rfl

theorem extendedIdToNode_keys (edges : List NetEdge) (elemToId : List (Nat × Nat)) :
    (extendedIdToNode edges elemToId).map Prod.fst
      = elemToId.map Prod.fst ++ nonRosterEndpoints edges elemToId := by
  rw [extendedIdToNode, List.map_append, List.map_map]
  rw [show (Prod.fst ∘ (fun p : Nat × Nat => (p.2, elemToId.length + p.1)))
      = Prod.snd from rfl]
  rw [List.enum_map_snd]

theorem extendedIdToNode_values (edges : List NetEdge) (elemToId : List (Nat × Nat))
    (hrows : elemToId.map Prod.snd = List.range elemToId.length) :
    (extendedIdToNode edges elemToId).map Prod.snd
      = List.range (elemToId.length + (nonRosterEndpoints edges elemToId).length) := by
  rw [extendedIdToNode, List.map_append, List.map_map, hrows]
  rw [show (Prod.snd ∘ (fun p : Nat × Nat => (p.2, elemToId.length + p.1)))
      = ((fun i => elemToId.length + i) ∘ Prod.fst) from rfl]
  rw [← List.map_map, List.enum_map_fst, List.range_add]

/-- Counterexample to claim C7's "first-seen order": `build_network`
routes the endpoint ids through a Python `set`, so with roster user 1 and
edges 1→7 then 1→3 the extension enumerates 3 before 7, not the
first-seen target order 7 then 3. -/
theorem C7_first_seen_order_counterexample :
    (buildNetwork
        [{ source := 1, target := 7, frequency := 5 },
         { source := 1, target := 3, frequency := 4 }]
        [(1, 0)]).idToNode ≠
      firstSeenExtension
        [{ source := 1, target := 7, frequency := 5 },
         { source := 1, target := 3, frequency := 4 }]
        [(1, 0)] := by decide

/-- Claim C7 as amended: `build_network` keeps exactly the edges whose
source user is in `elem_to_id`, extends the mapping with the non-roster
endpoint users at the consecutive ids `len(elem_to_id)`, `len+1`, …
appended after all roster ids — in Python set-iteration order of the
endpoint-id set (ascending numeric value for small ids), not first-seen
order — preserves every roster assignment, and fills a
`len(elem_to_id) × len(id_to_node)` matrix whose cell
(source row, target row) holds the edge's frequency. -/
theorem C7_build_network_extension (edges : List NetEdge)
    (elemToId : List (Nat × Nat))
    (hkeys : (elemToId.map Prod.fst).Nodup)
    (hrows : elemToId.map Prod.snd = List.range elemToId.length)
    (hpairs : (keptEdges edges elemToId).Pairwise
      (fun a b => (a.source, a.target) ≠ (b.source, b.target))) :
    (∀ e, e ∈ keptEdges edges elemToId ↔
        e ∈ edges ∧ e.source ∈ elemToId.map Prod.fst)
    ∧ (buildNetwork edges elemToId).idToNode.map Prod.fst
        = elemToId.map Prod.fst ++ nonRosterEndpoints edges elemToId
    ∧ (buildNetwork edges elemToId).idToNode.map Prod.snd
        = List.range (elemToId.length + (nonRosterEndpoints edges elemToId).length)
    ∧ (∀ k v, (k, v) ∈ elemToId →
        lookupAssoc (buildNetwork edges elemToId).idToNode k = some v)
    ∧ (buildNetwork edges elemToId).rows = elemToId.length
    ∧ (buildNetwork edges elemToId).cols
        = elemToId.length + (nonRosterEndpoints edges elemToId).length
    ∧ (∀ e ∈ keptEdges edges elemToId,
        (buildNetwork edges elemToId).cell
          ((lookupAssoc (buildNetwork edges elemToId).idToNode e.source).getD 0)
          ((lookupAssoc (buildNetwork edges elemToId).idToNode e.target).getD 0)
          = e.frequency) := by
  have hkept : ∀ e, e ∈ keptEdges edges elemToId ↔
      e ∈ edges ∧ e.source ∈ elemToId.map Prod.fst := by
    intro e
    rw [keptEdges, List.mem_filter]
    constructor
    · rintro ⟨h1, h2⟩
      exact ⟨h1, (lookupAssoc_isSome_iff elemToId e.source).mp h2⟩
    · rintro ⟨h1, h2⟩
      exact ⟨h1, (lookupAssoc_isSome_iff elemToId e.source).mpr h2⟩
  have hkeysN := extendedIdToNode_keys edges elemToId
  have hvalsN := extendedIdToNode_values edges elemToId hrows
  -- presence of every kept endpoint in the extended mapping
  have hsrc : ∀ e ∈ keptEdges edges elemToId,
      e.source ∈ (extendedIdToNode edges elemToId).map Prod.fst := by
    intro e he
    rw [hkeysN, List.mem_append]
    exact Or.inl ((hkept e).mp he).2
  have htgt : ∀ e ∈ keptEdges edges elemToId,
      e.target ∈ (extendedIdToNode edges elemToId).map Prod.fst := by
    intro e he
    rw [hkeysN, List.mem_append]
    by_cases hlook : (lookupAssoc elemToId e.target).isSome = true
    · exact Or.inl ((lookupAssoc_isSome_iff elemToId e.target).mp hlook)
    · refine Or.inr ?_
      rw [nonRosterEndpoints, List.mem_filter]
      constructor
      · rw [mem_endpointIds]
        exact Or.inr (List.mem_map_of_mem _ he)
      · simp only [Option.isNone_iff_eq_none]
        simpa using Option.not_isSome_iff_eq_none.mp (by simpa using hlook)
  have hvalnd : ((extendedIdToNode edges elemToId).map Prod.snd).Nodup := by
    rw [hvalsN]
    exact List.nodup_range _
  refine ⟨hkept, hkeysN, hvalsN, ?_, rfl, ?_, ?_⟩
  · intro k v hmem
    rw [buildNetwork_idToNode, extendedIdToNode,
      lookupAssoc_append_left _ _ k
        ((lookupAssoc_isSome_iff elemToId k).mpr (List.mem_map_of_mem Prod.fst hmem))]
    exact lookupAssoc_nodup_mem elemToId k v hkeys hmem
  · show (extendedIdToNode edges elemToId).length = _
    have := congrArg List.length hvalsN
    rw [List.length_map, List.length_range] at this
    exact this
  · intro e he
    have hdist : (keptEdges edges elemToId).Pairwise
        (fun a b => rowKey (extendedIdToNode edges elemToId) a
          ≠ rowKey (extendedIdToNode edges elemToId) b) := by
      refine hpairs.imp_of_mem ?_
      intro a b ha hb hne heq
      have hsa := (lookupAssoc_isSome_iff _ a.source).mpr (hsrc a ha)
      have hsb := (lookupAssoc_isSome_iff _ b.source).mpr (hsrc b hb)
      have hta := (lookupAssoc_isSome_iff _ a.target).mpr (htgt a ha)
      have htb := (lookupAssoc_isSome_iff _ b.target).mpr (htgt b hb)
      rw [rowKey, rowKey, Prod.ext_iff] at heq
      by_cases hss : a.source = b.source
      · have hts : a.target ≠ b.target := by
          intro hts
          exact hne (Prod.ext_iff.mpr ⟨hss, hts⟩)
        exact lookupAssoc_getD_inj _ hvalnd _ _ hta htb hts heq.2
      · exact lookupAssoc_getD_inj _ hvalnd _ _ hsa hsb hss heq.1
    show ((keptEdges edges elemToId).foldl
        (assignCell (rowKey (extendedIdToNode edges elemToId))) (fun _ _ => 0))
        ((rowKey (extendedIdToNode edges elemToId) e).1)
        ((rowKey (extendedIdToNode edges elemToId) e).2) = e.frequency
    exact foldl_assignCell_eq _ _ _ e he hdist

/-- Applies `C7_build_network_extension` to the concrete roster and edges
of the counterexample: edge 1→7 with frequency 5 lands in cell
(row 0, row 2) of a 1 × 3 matrix. -/
theorem C7_build_network_extension_witness :
    let E : List NetEdge :=
      [{ source := 1, target := 7, frequency := 5 },
       { source := 1, target := 3, frequency := 4 }]
    let R : List (Nat × Nat) := [(1, 0)]
    (buildNetwork E R).rows = 1
    ∧ (buildNetwork E R).cols = 3
    ∧ (buildNetwork E R).idToNode.map Prod.fst = [1, 3, 7]
    ∧ (∀ e ∈ keptEdges E R,
        (buildNetwork E R).cell
          ((lookupAssoc (buildNetwork E R).idToNode e.source).getD 0)
          ((lookupAssoc (buildNetwork E R).idToNode e.target).getD 0)
          = e.frequency)
    ∧ (buildNetwork E R).cell 0 2 = 5 := by
  intro E R
  have h := C7_build_network_extension E R (by decide) (by decide) (by decide)
  exact ⟨h.2.2.2.2.1, h.2.2.2.2.2.1, by decide, h.2.2.2.2.2.2, by decide⟩

end Tsundoku
